import Mathlib

/-!
Verification of the mfd deployment lifecycle manager.

The development shallowly embeds the Go sources: the deployment identity
scheme (internal/deployment), the retention sweep, activation, rollback and
deploy orchestration of the mfd client package, and the configuration
validation (internal/config).  Filesystem and subprocess effects are made
explicit: directory scans become lists of entries, the active symlink becomes
an optional target string, and external collaborators (git, the process
runner, systemctl) become oracles recording which steps ran.
-/

/-- Decimal digit as a character; codepoint 48 is the character for zero.
Mirrors the digit emission of Go integer formatting. -/
def natDigitChar (n : Nat) : Char := Char.ofNat (48 + n)

/-- Decimal digits of a natural number, most significant first, by
structural recursion on a fuel bound so that the function evaluates by
reduction; the fuel always suffices when it exceeds the number. -/
def natToDigitsCore : Nat → Nat → List Char
  | 0, _ => []
  | fuel + 1, n =>
    if n < 10 then [natDigitChar n]
    else natToDigitsCore fuel (n / 10) ++ [natDigitChar (n % 10)]

/-- Decimal digits of a natural number, most significant first: the digit
part of formatting with the Go verb for decimal integers. -/
def natToDigits (n : Nat) : List Char := natToDigitsCore (n + 1) n

/-- Formatting of an integer in base ten: optional minus sign followed by
decimal digits, as Go prints a signed integer. -/
def intToChars (i : Int) : List Char :=
  if i < 0 then '-' :: natToDigits i.natAbs else natToDigits i.natAbs

/-- Value of a decimal digit character, none for a non-digit: the
per-character test inside Go strconv integer parsing. -/
def charDigit (c : Char) : Option Nat :=
  if 48 ≤ c.toNat ∧ c.toNat ≤ 57 then some (c.toNat - 48) else none

/-- Accumulating parse of a run of decimal digit characters. -/
def digitsToNatAux : List Char → Nat → Option Nat
  | [], acc => some acc
  | c :: cs, acc =>
    match charDigit c with
    | none => none
    | some d => digitsToNatAux cs (acc * 10 + d)

/-- Parse of a nonempty run of decimal digit characters; the empty run is an
error, as in Go strconv. -/
def digitsToNat (cs : List Char) : Option Nat :=
  if cs.isEmpty then none else digitsToNatAux cs 0

/-- Go strconv.Atoi on the character list of a string: an optional sign
followed by a nonempty run of decimal digits; anything else is an error.
Overflow of the 64-bit integer type is not modelled; every value the program
handles fits. -/
def atoi (cs : List Char) : Option Int :=
  match cs with
  | [] => none
  | c :: rest =>
    if c = '+' then (digitsToNat rest).map (fun (n : Nat) => (n : Int))
    else if c = '-' then (digitsToNat rest).map (fun (n : Nat) => -(n : Int))
    else (digitsToNat (c :: rest)).map (fun (n : Nat) => (n : Int))

/-- Go strings.Split for a single-character separator: the empty input yields
one empty field, and every separator occurrence starts a new field. -/
def splitOnChar (sep : Char) : List Char → List (List Char)
  | [] => [[]]
  | c :: cs =>
    if c = sep then [] :: splitOnChar sep cs
    else
      match splitOnChar sep cs with
      | [] => [[c]]
      | f :: fs => (c :: f) :: fs

/-- Deployment value from internal/deployment: creation time in unix seconds
and the commit hash string. -/
structure Deployment where
  createdAt : Int
  commitHash : String
deriving DecidableEq, Repr

/-- deployment.Parse: split on underscores into exactly three parts, require
the literal mfd prefix, an integer timestamp, and a 40-character third part.
The none result is the ErrInvalid error of the source. -/
def Parse (s : String) : Option Deployment :=
  match splitOnChar '_' s.data with
  | [p0, p1, p2] =>
    if p0 = "mfd".data then
      match atoi p1 with
      | none => none
      | some t => if p2.length = 40 then some ⟨t, ⟨p2⟩⟩ else none
    else none
  | _ => none

/-- Deployment.String of the source: the canonical directory name, the mfd
prefix, the unix timestamp and the commit hash joined by underscores. -/
def Deployment.render (d : Deployment) : String :=
  ⟨"mfd_".data ++ intToChars d.createdAt ++ '_' :: d.commitHash.data⟩

/-- deployment.SortNewestToOldest: sort descending by creation time, using
the comparison of the second element against the first. -/
def SortNewestToOldest (deployments : List Deployment) : List Deployment :=
  deployments.mergeSort (fun a b => b.createdAt ≤ a.createdAt)

/-- Fields of a directory entry the scan consults. -/
structure DirEntry where
  name : String
  isDir : Bool
deriving DecidableEq, Repr

/-- deployment.FromFiles: keep directory entries whose names parse as
deployments, in scan order; everything else is silently skipped. -/
def FromFiles (files : List DirEntry) : List Deployment :=
  files.filterMap (fun f => if f.isDir then Parse f.name else none)

/-- deployment.List, over an explicit scan result of the working root:
parse the surviving directory names and sort newest to oldest. -/
def ListDeployments (files : List DirEntry) : List Deployment :=
  SortNewestToOldest (FromFiles files)

/-- deployment.FindByCommitHash: first listed deployment with the commit
hash, none being the ErrNotFound error. -/
def FindByCommitHash (deployments : List Deployment) (commitHash : String) :
    Option Deployment :=
  deployments.find? (fun d => d.commitHash == commitHash)

/-- Ways resolving the active symlink can fail: the link is missing from the
filesystem, or its target is not a valid deployment identity. -/
inductive ActiveErr where
  | missing
  | invalid
deriving DecidableEq, Repr

/-- getActiveDeployment of the client package: read the target of the active
symlink (none models the not-exist error of the readlink call) and parse it. -/
def getActiveDeployment (link : Option String) : Except ActiveErr Deployment :=
  match link with
  | none => .error .missing
  | some s =>
    match Parse s with
    | none => .error .invalid
    | some d => .ok d

/-- Unix seconds of the zero value of the Go time type. -/
def goZeroUnix : Int := -62135596800

/-- Zero value Deployment: what the clean sweep compares against when the
active symlink is absent and the error is tolerated. -/
def zeroDeployment : Deployment := ⟨goZeroUnix, ""⟩

/-- keepDeploymentsCount, the retention constant of the client package. -/
def keepDeploymentsCount : Nat := 3

/-- Removal loop of the clean sweep: walk the candidates in listing order and
remove each one whose rendered name differs from the active rendered name. -/
def removeLoop (activeName : String) : List Deployment → List Deployment
  | [] => []
  | d :: rest =>
    if d.render = activeName then removeLoop activeName rest
    else d :: removeLoop activeName rest

/-- Client.clean given the resolved active deployment, as the list of
deployments it removes: nothing when at most keepDeploymentsCount exist,
otherwise the sweep of the listing beyond the retention window. -/
def cleanRemovals (active : Deployment) (deps : List Deployment) :
    List Deployment :=
  if deps.length ≤ keepDeploymentsCount then []
  else removeLoop active.render (deps.drop keepDeploymentsCount)

/-- Client.clean with the active link resolved as in the source: a missing
link leaves the zero value Deployment, while a link whose target fails to
parse is an error propagated to the caller. -/
def cleanRun (link : Option String) (deps : List Deployment) :
    Except Unit (List Deployment) :=
  match link with
  | none => .ok (cleanRemovals zeroDeployment deps)
  | some s =>
    match Parse s with
    | none => .error ()
    | some a => .ok (cleanRemovals a deps)

/-- Deployments surviving a clean sweep, used to thread the on-disk state
through a Deploy call: the retained window plus any swept entry whose
rendered name matches the active one. -/
def cleanRemaining (active : Deployment) (deps : List Deployment) :
    List Deployment :=
  if deps.length ≤ keepDeploymentsCount then deps
  else deps.take keepDeploymentsCount ++
    (deps.drop keepDeploymentsCount).filter (fun d => d.render == active.render)

/-- Outcomes of Client.Rollback. -/
inductive RollbackResult where
  | errActiveMissing
  | errActiveInvalid
  | errNotFound
  | errNoPrevious
  | activated (d : Deployment)
deriving DecidableEq, Repr

/-- Client.Rollback: resolve the active deployment, locate it in the listing
by rendered name, and activate the entry directly after it; errors mirror the
source (a missing or invalid active pointer, ErrNotFound when the active
deployment is not listed, ErrNoPreviousDeployment past the oldest entry). -/
def Rollback (link : Option String) (deps : List Deployment) : RollbackResult :=
  match getActiveDeployment link with
  | .error .missing => .errActiveMissing
  | .error .invalid => .errActiveInvalid
  | .ok active =>
    match deps.findIdx? (fun d => d.render == active.render) with
    | none => .errNotFound
    | some i =>
      if h : i + 1 < deps.length then .activated (deps.get ⟨i + 1, h⟩)
      else .errNoPrevious

/-- Outcomes of inspecting the active symlink name with lstat. -/
inductive LstatOutcome where
  | okExisting
  | notExist
  | otherErr
deriving DecidableEq, Repr

/-- Filesystem operations the activation step issues. -/
inductive FsOp where
  | remove
  | symlink (target : String)
deriving DecidableEq, Repr

/-- Client.activate: create the active symlink directly when nothing exists at
that name; remove the existing entry first otherwise; propagate any
inspection error other than not-exist.  The result lists the operations
attempted and reports whether the call succeeded (removeOk threads the
outcome of the removal itself). -/
def Activate (outcome : LstatOutcome) (removeOk : Bool) (d : Deployment) :
    List FsOp × Bool :=
  match outcome with
  | .otherErr => ([], false)
  | .notExist => ([FsOp.symlink d.render], true)
  | .okExisting =>
    if removeOk then ([FsOp.remove, FsOp.symlink d.render], true)
    else ([FsOp.remove], false)

/-- Outcome of the build loop. -/
inductive BuildResult where
  | ok
  | fail (cmd : List String)
  | panicked (cmd : List String)
deriving DecidableEq, Repr

/-- One executed build command: working directory, program and arguments,
mirroring the construction of the subprocess from element zero and the rest
of the argv array, directory-scoped to the deployment. -/
structure RunCmd where
  dir : String
  prog : String
  args : List String
deriving DecidableEq, Repr

/-- Client.build: run the configured commands in order inside the deployment
directory, stopping at the first non-zero exit, which is identified by its
command; indexing element zero of an empty argv is a runtime panic.  The runs
oracle reports whether a spawned command exits zero. -/
def Build (runs : List String → Bool) (dir : String) :
    List (List String) → List RunCmd × BuildResult
  | [] => ([], .ok)
  | cmd :: rest =>
    match cmd with
    | [] => ([], .panicked cmd)
    | prog :: args =>
      if runs (prog :: args) then
        let res := Build runs dir rest
        (⟨dir, prog, args⟩ :: res.1, res.2)
      else ([⟨dir, prog, args⟩], .fail (prog :: args))

/-- On-disk state a Deploy call reads and writes: the parsed listing of the
working root and the target of the active symlink. -/
structure World where
  deps : List Deployment
  activeLink : Option String
deriving DecidableEq, Repr

/-- Behaviour of the external collaborators during one Deploy call: the
process runner oracle and the success of the clone, activation and restart
steps. -/
structure DeployEnv where
  runs : List String → Bool
  fetchOk : Bool
  activateOk : Bool
  restartOk : Bool

/-- Observable steps of a Deploy call, at the granularity of the lifecycle
(fetch, build with its individual commands, activate, restart, clean). -/
inductive Event where
  | fetch (d : Deployment)
  | build (d : Deployment)
  | run (c : RunCmd)
  | activate (d : Deployment)
  | restart
  | clean
deriving DecidableEq, Repr

/-- Errors that can abort a Deploy call, by stage. -/
inductive DeployErr where
  | fetchErr
  | buildErr (cmd : List String)
  | buildPanic (cmd : List String)
  | activateErr
  | restartErr
  | cleanErr
deriving DecidableEq, Repr

/-- Test for a fetch step among the observed events. -/
def isFetchEvent : Event → Bool
  | .fetch _ => true
  | _ => false

/-- Test for a build step among the observed events. -/
def isBuildEvent : Event → Bool
  | .build _ => true
  | _ => false

/-- Client.Deploy: when a listed deployment already carries the requested
commit hash, only activate it and restart; otherwise stamp a fresh deployment
with the current time, then fetch, build, activate, restart and clean, any
stage failure aborting the call.  Returns the steps performed, the resulting
on-disk state, and the error that aborted the call, if any.  A successful
fetch materializes the deployment directory, so the listing the subsequent
clean reads contains the fresh deployment; the clean step re-reads the active
link exactly as the source does, including the propagated parse failure.
States left by a failed activation are not modelled beyond the error. -/
def Deploy (env : DeployEnv) (cmds : List (List String)) (now : Int)
    (commitHash : String) (w : World) : List Event × World × Option DeployErr :=
  match FindByCommitHash w.deps commitHash with
  | some dep =>
    if env.activateOk then
      let w1 : World := ⟨w.deps, some dep.render⟩
      if env.restartOk then ([.activate dep, .restart], w1, none)
      else ([.activate dep, .restart], w1, some .restartErr)
    else ([.activate dep], w, some .activateErr)
  | none =>
    let dep : Deployment := ⟨now, commitHash⟩
    if env.fetchOk then
      let deps1 := SortNewestToOldest (dep :: w.deps)
      match Build env.runs dep.render cmds with
      | (executed, .fail bad) =>
        ([.fetch dep, .build dep] ++ executed.map Event.run,
         ⟨deps1, w.activeLink⟩, some (.buildErr bad))
      | (executed, .panicked bad) =>
        ([.fetch dep, .build dep] ++ executed.map Event.run,
         ⟨deps1, w.activeLink⟩, some (.buildPanic bad))
      | (executed, .ok) =>
        let evs := [.fetch dep, .build dep] ++ executed.map Event.run
        if env.activateOk then
          if env.restartOk then
            match Parse dep.render with
            | none =>
              (evs ++ [.activate dep, .restart, .clean],
               ⟨deps1, some dep.render⟩, some .cleanErr)
            | some a =>
              (evs ++ [.activate dep, .restart, .clean],
               ⟨cleanRemaining a deps1, some dep.render⟩, none)
          else
            (evs ++ [.activate dep, .restart],
             ⟨deps1, some dep.render⟩, some .restartErr)
        else (evs ++ [.activate dep], ⟨deps1, w.activeLink⟩, some .activateErr)
    else ([.fetch dep], w, some .fetchErr)

/-- Decoded TOML state that the validation in config.Read consults: which of
the required keys were present in the document, and the decoded field values
(string fields absent from the document decode to the empty string). -/
structure RawConfig where
  repoUrlPresent : Bool
  buildCommandsPresent : Bool
  url : String
  username : String
  password : String
  token : String
  commands : List (List String)
deriving Repr

/-- Errors of config.Read. -/
inductive ConfigErr where
  | missingValues (keys : List String)
  | tokenAndPassword
  | missingUsername
deriving DecidableEq, Repr

/-- Validated configuration as config.Read returns it. -/
structure Config where
  url : String
  username : String
  password : String
  token : String
  commands : List (List String)
deriving Repr

/-- config.Read after TOML decoding: collect the required keys that are
absent and fail on any; then reject a password set together with a token, and
a password set without a username. -/
def readConfig (rc : RawConfig) : Except ConfigErr Config :=
  let missing :=
    (if rc.repoUrlPresent then [] else ["repo.url"]) ++
    (if rc.buildCommandsPresent then [] else ["build.commands"])
  if missing.isEmpty then
    if rc.password ≠ "" ∧ rc.token ≠ "" then .error .tokenAndPassword
    else if rc.password ≠ "" ∧ rc.username = "" then .error .missingUsername
    else .ok ⟨rc.url, rc.username, rc.password, rc.token, rc.commands⟩
  else .error (.missingValues missing)

/-- Hexadecimal digit test: the character set of a commit hash per the data
model (decimal digits and the letter ranges for the values ten to fifteen). -/
def isHexChar (c : Char) : Bool :=
  (48 ≤ c.toNat && c.toNat ≤ 57) || (97 ≤ c.toNat && c.toNat ≤ 102) ||
    (65 ≤ c.toNat && c.toNat ≤ 70)

/-- Commit hash used by concrete instantiations (from the repository tests). -/
def hash0 : String := "a94a8fe5ccb19ba61c4c0873d391e987982fbbd3"

/-- Second commit hash for concrete instantiations. -/
def hashB : String := "bbbbbbbbbbbbbbbbbbbbbbbbbbbbbbbbbbbbbbbb"

/-- Third commit hash for concrete instantiations. -/
def hashC : String := "cccccccccccccccccccccccccccccccccccccccc"

/-- Environment where every external collaborator succeeds. -/
def envOk : DeployEnv := ⟨fun _ => true, true, true, true⟩

/-- Hash of forty letter-a characters, for concrete instantiations. -/
def hashA : String := "aaaaaaaaaaaaaaaaaaaaaaaaaaaaaaaaaaaaaaaa"

/-- Canonical directory name with timestamp 100 and the letter-a hash. -/
def nameA : String := "mfd_100_aaaaaaaaaaaaaaaaaaaaaaaaaaaaaaaaaaaaaaaa"

/-- Canonical directory name with timestamp 200 and the letter-b hash. -/
def nameB : String := "mfd_200_bbbbbbbbbbbbbbbbbbbbbbbbbbbbbbbbbbbbbbbb"

/-- Canonical directory name with timestamp 300 and the letter-c hash. -/
def nameC : String := "mfd_300_cccccccccccccccccccccccccccccccccccccccc"

/-- Concrete directory scan: a file ignored for not being a directory, a
directory whose name fails to parse, and three deployments out of order. -/
def files0 : List DirEntry :=
  [⟨nameA, false⟩, ⟨"testdata", true⟩, ⟨nameA, true⟩, ⟨nameC, true⟩,
   ⟨nameB, true⟩]

/-- Concrete listing for rollback instantiations: newest first. -/
def deps0 : List Deployment := [⟨200, hashB⟩, ⟨100, hashA⟩]

/-- Environment whose process runner only lets one specific command exit
zero, with every other collaborator succeeding. -/
def envFail : DeployEnv := ⟨fun c => c == ["true"], true, true, true⟩

/-- On-disk state after a first successful deploy of hash0 at time 100. -/
def w10 : World :=
  ⟨[⟨100, hash0⟩], some (Deployment.render ⟨100, hash0⟩)⟩

/-! Digit and integer formatting lemmas. -/

theorem charDigit_natDigitChar {n : Nat} (h : n < 10) :
    charDigit (natDigitChar n) = some n := by
  interval_cases n <;> decide

theorem natDigitChar_bounds {n : Nat} (h : n < 10) :
    48 ≤ (natDigitChar n).toNat ∧ (natDigitChar n).toNat ≤ 57 := by
  interval_cases n <;> decide

theorem natToDigitsCore_mem_digit (fuel : Nat) :
    ∀ n, n < fuel → ∀ c ∈ natToDigitsCore fuel n,
      48 ≤ c.toNat ∧ c.toNat ≤ 57 := by
  induction fuel with
  | zero => omega
  | succ fuel ih =>
    intro n hn c hc
    rw [natToDigitsCore] at hc
    split at hc
    next h =>
      rw [List.mem_singleton] at hc
      subst hc
      exact natDigitChar_bounds h
    next h =>
      rcases List.mem_append.mp hc with hc1 | hc2
      · have hlt : n / 10 < fuel :=
          Nat.lt_of_lt_of_le (Nat.div_lt_self (by omega) (by omega)) (by omega)
        exact ih (n / 10) hlt c hc1
      · rw [List.mem_singleton] at hc2
        subst hc2
        exact natDigitChar_bounds (Nat.mod_lt n (by omega))

theorem natToDigits_mem_digit (n : Nat) :
    ∀ c ∈ natToDigits n, 48 ≤ c.toNat ∧ c.toNat ≤ 57 :=
  natToDigitsCore_mem_digit (n + 1) n (Nat.lt_succ_self n)

theorem natToDigits_ne_nil (n : Nat) : natToDigits n ≠ [] := by
  rw [natToDigits, natToDigitsCore]
  split <;> simp

theorem digitsToNatAux_append (xs ys : List Char) (acc : Nat) :
    digitsToNatAux (xs ++ ys) acc =
      match digitsToNatAux xs acc with
      | none => none
      | some m => digitsToNatAux ys m := by
  induction xs generalizing acc with
  | nil => rfl
  | cons c cs ih =>
    simp only [List.cons_append, digitsToNatAux]
    cases charDigit c with
    | none => rfl
    | some d => exact ih _

theorem digitsToNatAux_natToDigitsCore (fuel : Nat) :
    ∀ n, n < fuel → ∀ acc, digitsToNatAux (natToDigitsCore fuel n) acc =
      some (acc * 10 ^ (natToDigitsCore fuel n).length + n) := by
  induction fuel with
  | zero => omega
  | succ fuel ih =>
    intro n hn acc
    rw [natToDigitsCore]
    split
    next h =>
      simp only [digitsToNatAux, charDigit_natDigitChar h, List.length_singleton]
      rw [pow_one]
    next h =>
      have hlt : n / 10 < fuel :=
        Nat.lt_of_lt_of_le (Nat.div_lt_self (by omega) (by omega)) (by omega)
      rw [digitsToNatAux_append]
      rw [ih (n / 10) hlt acc]
      have hm : n % 10 < 10 := Nat.mod_lt n (by omega)
      simp only [digitsToNatAux, charDigit_natDigitChar hm, List.length_append,
        List.length_singleton]
      congr 1
      have hdm : 10 * (n / 10) + n % 10 = n := Nat.div_add_mod n 10
      calc (acc * 10 ^ (natToDigitsCore fuel (n / 10)).length + n / 10) * 10
            + n % 10
          = acc * (10 ^ (natToDigitsCore fuel (n / 10)).length * 10) +
              (10 * (n / 10) + n % 10) := by ring
        _ = acc * 10 ^ ((natToDigitsCore fuel (n / 10)).length + 1) + n := by
              rw [hdm, pow_succ]

theorem digitsToNatAux_natToDigits (n : Nat) :
    ∀ acc, digitsToNatAux (natToDigits n) acc =
      some (acc * 10 ^ (natToDigits n).length + n) :=
  digitsToNatAux_natToDigitsCore (n + 1) n (Nat.lt_succ_self n)

theorem digitsToNat_natToDigits (n : Nat) :
    digitsToNat (natToDigits n) = some n := by
  rw [digitsToNat, if_neg]
  · rw [digitsToNatAux_natToDigits n 0]
    simp
  · cases h : natToDigits n with
    | nil => exact absurd h (natToDigits_ne_nil n)
    | cons c cs => simp [h]

theorem atoi_natToDigits (n : Nat) : atoi (natToDigits n) = some (n : Int) := by
  have hd := natToDigits_mem_digit n
  have hne := natToDigits_ne_nil n
  cases h : natToDigits n with
  | nil => exact absurd h hne
  | cons c cs =>
    have hc : 48 ≤ c.toNat ∧ c.toNat ≤ 57 := hd c (h ▸ List.mem_cons_self c cs)
    rw [atoi, if_neg, if_neg]
    · rw [← h, digitsToNat_natToDigits n]
      rfl
    · intro he
      subst he
      revert hc
      decide
    · intro he
      subst he
      revert hc
      decide

theorem atoi_intToChars (i : Int) : atoi (intToChars i) = some i := by
  rw [intToChars]
  split
  next hneg =>
    have hstep : atoi ('-' :: natToDigits i.natAbs) =
        (digitsToNat (natToDigits i.natAbs)).map (fun (n : Nat) => -(n : Int)) := by
      rw [atoi, if_neg (by decide), if_pos rfl]
    rw [hstep, digitsToNat_natToDigits]
    simp only [Option.map_some']
    congr 1
    omega
  next hpos =>
    rw [atoi_natToDigits]
    congr 1
    omega

theorem not_underscore_natToDigits (n : Nat) : ('_') ∉ natToDigits n := by
  intro hmem
  have hd := natToDigits_mem_digit n _ hmem
  have h95 : ('_').toNat = 95 := by decide
  omega

theorem not_underscore_intToChars (i : Int) : ('_') ∉ intToChars i := by
  rw [intToChars]
  split
  · intro hmem
    rcases List.mem_cons.mp hmem with he | hmem2
    · exact absurd he (by decide)
    · exact not_underscore_natToDigits _ hmem2
  · exact not_underscore_natToDigits _

/-! Split lemmas. -/

theorem splitOnChar_no_sep (sep : Char) (xs : List Char) (h : sep ∉ xs) :
    splitOnChar sep xs = [xs] := by
  induction xs with
  | nil => rfl
  | cons c cs ih =>
    rw [splitOnChar, if_neg (fun he => h (List.mem_cons.mpr (Or.inl he.symm))),
      ih (fun hm => h (List.mem_cons_of_mem _ hm))]

theorem splitOnChar_append (sep : Char) (xs ys : List Char) (h : sep ∉ xs) :
    splitOnChar sep (xs ++ sep :: ys) = xs :: splitOnChar sep ys := by
  induction xs with
  | nil => rw [List.nil_append, splitOnChar, if_pos rfl]
  | cons c cs ih =>
    rw [List.cons_append, splitOnChar,
      if_neg (fun he => h (List.mem_cons.mpr (Or.inl he.symm))),
      ih (fun hm => h (List.mem_cons_of_mem _ hm))]

/-! Parse and render lemmas. -/

theorem Parse_three (s : String) (p0 p1 p2 : List Char)
    (hsp : splitOnChar '_' s.data = [p0, p1, p2]) :
    Parse s = if p0 = "mfd".data then
        match atoi p1 with
        | none => none
        | some tv => if p2.length = 40 then some ⟨tv, ⟨p2⟩⟩ else none
      else none := by
  unfold Parse
  rw [hsp]

theorem Parse_not_three (s : String)
    (hno : ∀ p0 p1 p2 : List Char, splitOnChar '_' s.data ≠ [p0, p1, p2]) :
    Parse s = none := by
  unfold Parse
  split
  next p0 p1 p2 heq => exact absurd heq (hno p0 p1 p2)
  next => rfl

theorem Parse_render (t : Int) (hash : String) (hlen : hash.length = 40)
    (hund : ('_') ∉ hash.data) :
    Parse (Deployment.render ⟨t, hash⟩) = some ⟨t, hash⟩ := by
  have hmfd : ("mfd_".data : List Char) = ['m', 'f', 'd', '_'] := by decide
  have hdata : (Deployment.render ⟨t, hash⟩).data =
      ['m', 'f', 'd'] ++ '_' :: (intToChars t ++ '_' :: hash.data) := by
    show "mfd_".data ++ intToChars t ++ '_' :: hash.data = _
    rw [hmfd]
    simp
  have hsp : splitOnChar '_' (Deployment.render ⟨t, hash⟩).data =
      [['m', 'f', 'd'], intToChars t, hash.data] := by
    rw [hdata, splitOnChar_append _ _ _ (by decide),
      splitOnChar_append _ _ _ (not_underscore_intToChars t),
      splitOnChar_no_sep _ _ hund]
  rw [Parse_three _ _ _ _ hsp, if_pos (by decide), atoi_intToChars]
  show (if hash.data.length = 40 then
      some (⟨t, ⟨hash.data⟩⟩ : Deployment) else none) = some ⟨t, hash⟩
  rw [if_pos (show hash.data.length = 40 from hlen)]

/-- C4: for every timestamp and every 40-character commit hash (hexadecimal,
as the data model specifies commit hashes), parsing the canonical string
produced by the Deployment String method yields back exactly the original
timestamp and hash. -/
theorem Parse_render_roundtrip (t : Int) (hash : String)
    (hlen : hash.length = 40)
    (hhex : hash.data.all isHexChar = true) :
    Parse (Deployment.render ⟨t, hash⟩) = some ⟨t, hash⟩ := by
  apply Parse_render t hash hlen
  intro hmem
  have hx := List.all_eq_true.mp hhex _ hmem
  exact absurd hx (by decide)

/-- C4 witness: the round-trip theorem applied at a concrete timestamp and
hash from the repository tests. -/
theorem Parse_render_roundtrip_witness :
    Parse (Deployment.render ⟨1625079600, hash0⟩) = some ⟨1625079600, hash0⟩ :=
  Parse_render_roundtrip 1625079600 hash0 (by decide) (by decide)

/-- C5: every string that does not split into exactly three
underscore-separated segments, or whose first segment is not the literal mfd,
or whose second segment does not parse as an integer, or whose third segment
has length different from 40, parses to the invalid-identity error and no
deployment value. -/
theorem Parse_rejects (s : String) :
    ((∀ p0 p1 p2 : List Char, splitOnChar '_' s.data ≠ [p0, p1, p2]) →
        Parse s = none)
  ∧ (∀ p0 p1 p2 : List Char, splitOnChar '_' s.data = [p0, p1, p2] →
        (p0 ≠ "mfd".data → Parse s = none)
      ∧ (atoi p1 = none → Parse s = none)
      ∧ (p2.length ≠ 40 → Parse s = none)) := by
  constructor
  · exact Parse_not_three s
  · intro p0 p1 p2 hsp
    rw [Parse_three _ _ _ _ hsp]
    refine ⟨?_, ?_, ?_⟩
    · intro hp0
      rw [if_neg hp0]
    · intro hat
      by_cases hp0 : p0 = "mfd".data
      · rw [if_pos hp0, hat]
      · rw [if_neg hp0]
    · intro hlen
      by_cases hp0 : p0 = "mfd".data
      · rw [if_pos hp0]
        cases hat : atoi p1 with
        | none => rfl
        | some tv =>
          show (if p2.length = 40 then
              some (⟨tv, ⟨p2⟩⟩ : Deployment) else none) = none
          rw [if_neg hlen]
      · rw [if_neg hp0]

/-- C5 witness: the rejection theorem applied to a concrete name whose third
segment is shorter than 40 characters. -/
theorem Parse_rejects_witness : Parse ("mfd_1625079600_invalidhash") = none :=
  ((Parse_rejects ("mfd_1625079600_invalidhash")).2
    ("mfd".data) ("1625079600".data) ("invalidhash".data) (by decide)).2.2
    (by decide)

/-- C6: over any directory scan, the listing contains exactly the
deployments parsed from directory entries (entries that are not directories
or fail to parse are silently discarded), it is a permutation of the parse
survivors, and when the creation times are pairwise distinct it is sorted
strictly descending by creation time (newest first). -/
theorem ListDeployments_sorted (files : List DirEntry)
    (hdist : (FromFiles files).Pairwise (fun a b => a.createdAt ≠ b.createdAt)) :
    (ListDeployments files).Perm (FromFiles files)
  ∧ (ListDeployments files).Pairwise (fun a b => b.createdAt < a.createdAt)
  ∧ (∀ d : Deployment, d ∈ ListDeployments files ↔
      ∃ f ∈ files, f.isDir = true ∧ Parse f.name = some d) := by
  have hperm : (ListDeployments files).Perm (FromFiles files) :=
    List.mergeSort_perm _ _
  refine ⟨hperm, ?_, ?_⟩
  · have htrans : ∀ a b c : Deployment,
        (decide (b.createdAt ≤ a.createdAt)) = true →
        (decide (c.createdAt ≤ b.createdAt)) = true →
        (decide (c.createdAt ≤ a.createdAt)) = true := by
      intro a b c hab hbc
      simp only [decide_eq_true_eq] at *
      exact le_trans hbc hab
    have htotal : ∀ a b : Deployment,
        ((decide (b.createdAt ≤ a.createdAt)) ||
          (decide (a.createdAt ≤ b.createdAt))) = true := by
      intro a b
      simp [le_total]
    have hs := List.sorted_mergeSort htrans htotal (FromFiles files)
    have hne : (ListDeployments files).Pairwise
        (fun a b => a.createdAt ≠ b.createdAt) :=
      hdist.perm hperm.symm (fun hxy => hxy.symm)
    have hcomb := hne.and hs
    refine hcomb.imp ?_
    intro a b hab
    obtain ⟨hne1, hle1⟩ := hab
    simp only [decide_eq_true_eq] at hle1
    exact lt_of_le_of_ne hle1 hne1.symm
  · intro d
    constructor
    · intro hd
      have hd2 : d ∈ FromFiles files := List.mem_mergeSort.mp hd
      obtain ⟨f, hf, heq⟩ := List.mem_filterMap.mp hd2
      by_cases hdir : f.isDir
      · refine ⟨f, hf, hdir, ?_⟩
        rw [if_pos hdir] at heq
        exact heq
      · rw [if_neg hdir] at heq
        cases heq
    · rintro ⟨f, hf, hdir, hparse⟩
      apply List.mem_mergeSort.mpr
      exact List.mem_filterMap.mpr ⟨f, hf, by rw [if_pos hdir, hparse]⟩

/-- C6 witness: the ordering theorem applied to a concrete scan holding a
non-directory entry, an unparseable directory and three deployments with
distinct timestamps. -/
theorem ListDeployments_sorted_witness :
    (ListDeployments files0).Perm (FromFiles files0)
  ∧ (ListDeployments files0).Pairwise (fun a b => b.createdAt < a.createdAt) :=
  ⟨(ListDeployments_sorted files0 (by decide)).1,
   (ListDeployments_sorted files0 (by decide)).2.1⟩

/-! Clean sweep lemmas. -/

theorem removeLoop_eq_filter (name : String) (l : List Deployment) :
    removeLoop name l = l.filter (fun d => !(d.render == name)) := by
  induction l with
  | nil => rfl
  | cons d rest ih =>
    rw [removeLoop]
    by_cases hd : d.render = name
    · rw [if_pos hd, ih, List.filter_cons]
      simp [hd]
    · rw [if_neg hd, ih, List.filter_cons]
      simp [hd]

/-- C2: the retention constant is three; the clean sweep removes nothing when
the listing has at most that many entries, and otherwise removes exactly the
listed entries beyond the retention window whose rendered name differs from
the active one; the active deployment itself is never removed, regardless of
its position in the listing. -/
theorem Clean_retention (active : Deployment) (deps : List Deployment) :
    keepDeploymentsCount = 3
  ∧ cleanRemovals active deps =
      (if deps.length ≤ keepDeploymentsCount then []
       else (deps.drop keepDeploymentsCount).filter
         (fun d => !(d.render == active.render)))
  ∧ active ∉ cleanRemovals active deps := by
  refine ⟨rfl, ?_, ?_⟩
  · rw [cleanRemovals]
    by_cases hlen : deps.length ≤ keepDeploymentsCount
    · rw [if_pos hlen, if_pos hlen]
    · rw [if_neg hlen, if_neg hlen, removeLoop_eq_filter]
  · intro hmem
    rw [cleanRemovals] at hmem
    by_cases hlen : deps.length ≤ keepDeploymentsCount
    · rw [if_pos hlen] at hmem
      exact List.not_mem_nil active hmem
    · rw [if_neg hlen, removeLoop_eq_filter] at hmem
      have hkeep := (List.mem_filter.mp hmem).2
      simp at hkeep

/-- C7: activation creates the symlink directly when nothing exists at the
active name; when an entry already exists there it removes it first and then
creates the new symlink; and an inspection error other than not-exist is
returned to the caller rather than swallowed. -/
theorem Activate_spec (d : Deployment) (removeOk : Bool) :
    Activate .notExist removeOk d = ([FsOp.symlink d.render], true)
  ∧ Activate .okExisting true d = ([FsOp.remove, FsOp.symlink d.render], true)
  ∧ Activate .otherErr removeOk d = ([], false) :=
  ⟨rfl, rfl, rfl⟩

/-! Rollback lemmas. -/

theorem findIdx?_decomp {α : Type} (p : α → Bool) (pre : List α) (a : α)
    (post : List α) (hpre : ∀ x ∈ pre, p x = false) (ha : p a = true) :
    (pre ++ a :: post).findIdx? p = some pre.length := by
  induction pre with
  | nil => simp [List.findIdx?_cons, ha]
  | cons x xs ih =>
    rw [List.cons_append, List.findIdx?_cons,
      if_neg (by simp [hpre x (List.mem_cons_self x xs)]),
      List.findIdx?_succ,
      ih (fun y hy => hpre y (List.mem_cons_of_mem _ hy))]
    rfl

theorem getActive_none : getActiveDeployment none = .error .missing := rfl

theorem getActive_invalid (s : String) (hp : Parse s = none) :
    getActiveDeployment (some s) = .error .invalid := by
  show (match Parse s with
    | none => (.error .invalid : Except ActiveErr Deployment)
    | some d => .ok d) = .error .invalid
  rw [hp]

theorem getActive_ok (s : String) (a : Deployment) (hp : Parse s = some a) :
    getActiveDeployment (some s) = .ok a := by
  show (match Parse s with
    | none => (.error .invalid : Except ActiveErr Deployment)
    | some d => .ok d) = .ok a
  rw [hp]

theorem Rollback_ok (s : String) (a : Deployment) (deps : List Deployment)
    (hp : Parse s = some a) :
    Rollback (some s) deps =
      match deps.findIdx? (fun d => d.render == a.render) with
      | none => .errNotFound
      | some i =>
        if h : i + 1 < deps.length then .activated (deps.get ⟨i + 1, h⟩)
        else .errNoPrevious := by
  unfold Rollback
  rw [getActive_ok s a hp]

theorem get_append_cons {α : Type} :
    ∀ (pre : List α) (a nxt : α) (rest : List α)
      (h : pre.length + 1 < (pre ++ a :: nxt :: rest).length),
      (pre ++ a :: nxt :: rest).get ⟨pre.length + 1, h⟩ = nxt := by
  intro pre
  induction pre with
  | nil => intro a nxt rest h; rfl
  | cons x xs ih =>
    intro a nxt rest h
    have hb : xs.length + 1 < (xs ++ a :: nxt :: rest).length := by simp
    exact ih a nxt rest hb

theorem Rollback_found (s : String) (a : Deployment) (deps : List Deployment)
    (i : Nat) (hp : Parse s = some a)
    (hfind : deps.findIdx? (fun d => d.render == a.render) = some i) :
    Rollback (some s) deps =
      if h : i + 1 < deps.length then .activated (deps.get ⟨i + 1, h⟩)
      else .errNoPrevious := by
  rw [Rollback_ok s a deps hp, hfind]

/-- C3: rollback errors when the active pointer is missing or its target is
invalid; errors with the not-found error when no listed deployment carries
the active rendered name; and when the active deployment occurs in the
listing (its first occurrence, after a prefix without matches), rollback
errors with the no-previous error when that occurrence is the last (oldest)
entry, and otherwise activates exactly the entry immediately after it. -/
theorem Rollback_spec (deps : List Deployment) (link : Option String) :
    (link = none → Rollback link deps = RollbackResult.errActiveMissing)
  ∧ (∀ s, link = some s → Parse s = none →
       Rollback link deps = RollbackResult.errActiveInvalid)
  ∧ (∀ s a, link = some s → Parse s = some a →
       ((∀ d ∈ deps, d.render ≠ a.render) →
          Rollback link deps = RollbackResult.errNotFound)
     ∧ (∀ pre a2 post, deps = pre ++ a2 :: post →
          a2.render = a.render → (∀ d ∈ pre, d.render ≠ a.render) →
            (post = [] → Rollback link deps = RollbackResult.errNoPrevious)
          ∧ (∀ nxt rest, post = nxt :: rest →
               Rollback link deps = RollbackResult.activated nxt))) := by
  refine ⟨?_, ?_, ?_⟩
  · intro hl
    subst hl
    rfl
  · intro s hl hp
    subst hl
    unfold Rollback
    rw [getActive_invalid s hp]
  · intro s a hl hp
    subst hl
    constructor
    · intro hnone
      rw [Rollback_ok s a deps hp]
      have hfind : deps.findIdx? (fun d => d.render == a.render) = none :=
        List.findIdx?_eq_none_iff.mpr (fun x hx => by simp [hnone x hx])
      rw [hfind]
    · intro pre a2 post hdeps ha2 hpre
      subst hdeps
      have hidx : (pre ++ a2 :: post).findIdx?
          (fun d => d.render == a.render) = some pre.length := by
        apply findIdx?_decomp
        · intro x hx
          simp [hpre x hx]
        · simp [ha2]
      constructor
      · intro hpost
        subst hpost
        rw [Rollback_found s a _ _ hp hidx, dif_neg (by simp)]
      · intro nxt rest hpost
        subst hpost
        have hlt : pre.length + 1 < (pre ++ a2 :: nxt :: rest).length := by
          simp
        rw [Rollback_found s a _ _ hp hidx, dif_pos hlt,
          get_append_cons pre a2 nxt rest hlt]

/-- C3 witness: with two listed deployments, rolling back from the newer one
activates the older, and rolling back from the oldest fails with the
no-previous error. -/
theorem Rollback_spec_witness :
    Rollback (some nameB) deps0 = RollbackResult.activated ⟨100, hashA⟩
  ∧ Rollback (some nameA) deps0 = RollbackResult.errNoPrevious :=
  ⟨(((Rollback_spec deps0 (some nameB)).2.2 nameB ⟨200, hashB⟩ rfl
      (by decide)).2 [] ⟨200, hashB⟩ [⟨100, hashA⟩] rfl rfl
      (by simp)).2 ⟨100, hashA⟩ [] rfl,
   (((Rollback_spec deps0 (some nameA)).2.2 nameA ⟨100, hashA⟩ rfl
      (by decide)).2 [⟨200, hashB⟩] ⟨100, hashA⟩ [] rfl rfl
      (by decide)).1 rfl⟩

/-! Configuration validation. -/

/-- C9: configuration loading fails when the repo url key or the build
commands key is absent, fails when both a token and a password are set, fails
when a password is set without a username, and succeeds on every decoded
configuration satisfying all of those constraints, returning the decoded
values unchanged. -/
theorem readConfig_validation (rc : RawConfig) :
    ((rc.repoUrlPresent = false ∨ rc.buildCommandsPresent = false) →
        (readConfig rc).isOk = false)
  ∧ (rc.password ≠ "" → rc.token ≠ "" → (readConfig rc).isOk = false)
  ∧ (rc.password ≠ "" → rc.username = "" → (readConfig rc).isOk = false)
  ∧ (rc.repoUrlPresent = true → rc.buildCommandsPresent = true →
       ¬(rc.password ≠ "" ∧ rc.token ≠ "") →
       ¬(rc.password ≠ "" ∧ rc.username = "") →
       readConfig rc =
         .ok ⟨rc.url, rc.username, rc.password, rc.token, rc.commands⟩) := by
  unfold readConfig
  refine ⟨?_, ?_, ?_, ?_⟩
  · intro habs
    rcases habs with h1 | h1 <;>
      cases h2 : rc.repoUrlPresent <;> cases h3 : rc.buildCommandsPresent <;>
        simp_all [Except.isOk, Except.toBool]
  · intro hp ht
    cases h2 : rc.repoUrlPresent <;> cases h3 : rc.buildCommandsPresent <;>
      simp_all [Except.isOk, Except.toBool]
  · intro hp hu
    cases h2 : rc.repoUrlPresent <;> cases h3 : rc.buildCommandsPresent <;>
      by_cases ht : rc.token = "" <;> simp_all [Except.isOk, Except.toBool]
  · intro hr hb hnt hnu
    simp [hr, hb, hnt, hnu]

/-- C9 witness: the validation theorem applied to a concrete accepted
configuration and to a concrete configuration missing the build commands. -/
theorem readConfig_validation_witness :
    readConfig ⟨true, true, "https://example.com/repo.git", "", "", "mytoken",
        [["go", "build"]]⟩ =
      .ok ⟨"https://example.com/repo.git", "", "", "mytoken",
        [["go", "build"]]⟩
  ∧ (readConfig ⟨true, false, "https://example.com/repo.git", "", "", "",
        []⟩).isOk = false :=
  ⟨(readConfig_validation
      ⟨true, true, "https://example.com/repo.git", "", "", "mytoken",
        [["go", "build"]]⟩).2.2.2 rfl rfl (by simp) (by simp),
   (readConfig_validation
      ⟨true, false, "https://example.com/repo.git", "", "", "",
        []⟩).1 (Or.inr rfl)⟩

/-- C10: the configuration validation accepts a build command list containing
an empty argv array (only presence of the key is checked), and the build step
indexes element zero of each argv unconditionally, so on such an accepted
configuration the build loop hits an out-of-bounds index (a runtime panic):
the safety property that every executed build command has a nonempty argv
does not hold without an added precondition. -/
theorem emptyArgv_accepted_panics :
    readConfig ⟨true, true, "https://example.com/repo.git", "", "", "",
        [[]]⟩ =
      .ok ⟨"https://example.com/repo.git", "", "", "", [[]]⟩
  ∧ (Build (fun _ => true) (Deployment.render ⟨100, hashA⟩) [[]]).2 =
      BuildResult.panicked [] := by
  constructor
  · rfl
  · rfl

/-! Lookup, retention-survivor and event-count lemmas. -/

theorem no_underscore_of_hex (hash : String)
    (hhex : hash.data.all isHexChar = true) : ('_') ∉ hash.data :=
  fun hmem => absurd (List.all_eq_true.mp hhex _ hmem) (by decide)

theorem find_eq_none_iff (deps : List Deployment) (h : String) :
    FindByCommitHash deps h = none ↔ ∀ d ∈ deps, d.commitHash ≠ h := by
  unfold FindByCommitHash
  rw [List.find?_eq_none]
  simp

theorem find_some (deps : List Deployment) (h : String) (d : Deployment)
    (hf : FindByCommitHash deps h = some d) : d ∈ deps ∧ d.commitHash = h := by
  unfold FindByCommitHash at hf
  exact ⟨List.mem_of_find?_eq_some hf, by simpa using List.find?_some hf⟩

theorem cleanRemaining_subset (a : Deployment) (l : List Deployment) :
    ∀ d ∈ cleanRemaining a l, d ∈ l := by
  intro d hd
  unfold cleanRemaining at hd
  by_cases hlen : l.length ≤ keepDeploymentsCount
  · rw [if_pos hlen] at hd
    exact hd
  · rw [if_neg hlen] at hd
    rcases List.mem_append.mp hd with h1 | h2
    · exact List.take_subset _ _ h1
    · exact List.drop_subset _ _ (List.mem_of_mem_filter h2)

theorem mem_cleanRemaining_self (a : Deployment) (l : List Deployment)
    (ha : a ∈ l) : a ∈ cleanRemaining a l := by
  unfold cleanRemaining
  by_cases hlen : l.length ≤ keepDeploymentsCount
  · rw [if_pos hlen]
    exact ha
  · rw [if_neg hlen]
    have hsplit : l = l.take keepDeploymentsCount ++ l.drop keepDeploymentsCount :=
      (List.take_append_drop _ _).symm
    rw [hsplit] at ha
    rcases List.mem_append.mp ha with h1 | h2
    · exact List.mem_append.mpr (Or.inl h1)
    · exact List.mem_append.mpr (Or.inr (List.mem_filter.mpr ⟨h2, by simp⟩))

theorem countP_run_fetch (l : List RunCmd) :
    (l.map Event.run).countP isFetchEvent = 0 := by
  induction l with
  | nil => rfl
  | cons c rest ih => simp [List.countP_cons, isFetchEvent, ih]

theorem countP_run_build (l : List RunCmd) :
    (l.map Event.run).countP isBuildEvent = 0 := by
  induction l with
  | nil => rfl
  | cons c rest ih => simp [List.countP_cons, isBuildEvent, ih]

/-! Build loop lemmas. -/

theorem Build_all_ok (runs : List String → Bool) (dir : String)
    (cmds : List (List String))
    (hok : ∀ c ∈ cmds, c ≠ [] ∧ runs c = true) :
    Build runs dir cmds =
      (cmds.map (fun c => ⟨dir, c.headI, c.tail⟩), BuildResult.ok) := by
  induction cmds with
  | nil => rfl
  | cons c rest ih =>
    obtain ⟨hne, hr⟩ := hok c (List.mem_cons_self c rest)
    cases c with
    | nil => exact absurd rfl hne
    | cons prog args =>
      rw [Build, if_pos hr, ih (fun y hy => hok y (List.mem_cons_of_mem _ hy))]
      simp

theorem Build_first_fail_core (runs : List String → Bool) (dir : String)
    (pre post : List (List String)) (bad : List String)
    (hpre : ∀ c ∈ pre, c ≠ [] ∧ runs c = true)
    (hbadne : bad ≠ []) (hbad : runs bad = false) :
    Build runs dir (pre ++ bad :: post) =
      ((pre ++ [bad]).map (fun c => ⟨dir, c.headI, c.tail⟩),
       BuildResult.fail bad) := by
  induction pre with
  | nil =>
    cases bad with
    | nil => exact absurd rfl hbadne
    | cons prog args =>
      rw [List.nil_append, Build, if_neg (by simp [hbad])]
      simp
  | cons c rest ih =>
    obtain ⟨hne, hr⟩ := hpre c (List.mem_cons_self c rest)
    cases c with
    | nil => exact absurd rfl hne
    | cons prog args =>
      rw [List.cons_append, Build, if_pos hr,
        ih (fun y hy => hpre y (List.mem_cons_of_mem _ hy))]
      simp

/-! Deploy branch lemmas. -/

theorem Deploy_hit (env : DeployEnv) (cmds : List (List String)) (now : Int)
    (commitHash : String) (w : World) (dep : Deployment)
    (hfind : FindByCommitHash w.deps commitHash = some dep)
    (hact : env.activateOk = true) (hrst : env.restartOk = true) :
    Deploy env cmds now commitHash w =
      ([Event.activate dep, Event.restart], ⟨w.deps, some dep.render⟩, none) := by
  simp only [Deploy, hfind, hact, hrst, if_true]

theorem Deploy_miss_ok (env : DeployEnv) (cmds : List (List String))
    (now : Int) (commitHash : String) (w : World) (a : Deployment)
    (hmiss : FindByCommitHash w.deps commitHash = none)
    (hfetch : env.fetchOk = true) (hact : env.activateOk = true)
    (hrst : env.restartOk = true)
    (hbuild : (Build env.runs (Deployment.render ⟨now, commitHash⟩) cmds).2 =
      BuildResult.ok)
    (hparse : Parse (Deployment.render ⟨now, commitHash⟩) = some a) :
    Deploy env cmds now commitHash w =
      ([Event.fetch ⟨now, commitHash⟩, Event.build ⟨now, commitHash⟩] ++
         (Build env.runs (Deployment.render ⟨now, commitHash⟩) cmds).1.map
           Event.run ++
         [Event.activate ⟨now, commitHash⟩, Event.restart, Event.clean],
       ⟨cleanRemaining a (SortNewestToOldest (⟨now, commitHash⟩ :: w.deps)),
        some (Deployment.render ⟨now, commitHash⟩)⟩,
       none) := by
  obtain ⟨executed, hB⟩ : ∃ ex,
      Build env.runs (Deployment.render ⟨now, commitHash⟩) cmds =
        (ex, BuildResult.ok) := by
    refine ⟨(Build env.runs (Deployment.render ⟨now, commitHash⟩) cmds).1, ?_⟩
    rw [← hbuild]
  have hex : (Build env.runs (Deployment.render ⟨now, commitHash⟩) cmds).1 =
      executed := by rw [hB]
  rw [hex]
  simp only [Deploy, hmiss, hfetch, hact, hrst, if_true, hB, hparse]

/-- C8: the build step executes the configured commands in the configured
order, each spawned in the new deployment directory; the first command
exiting non-zero aborts the whole deploy call with that command identified in
the error, no later command runs, and the deployment directory is left in the
listing while the active link is unchanged (the deployment is never
activated). -/
theorem Build_first_failure (env : DeployEnv) (now : Int) (commitHash : String)
    (w : World) (pre post : List (List String)) (bad : List String)
    (hpre : ∀ c ∈ pre, c ≠ [] ∧ env.runs c = true)
    (hbadne : bad ≠ []) (hbad : env.runs bad = false)
    (hmiss : FindByCommitHash w.deps commitHash = none)
    (hfetch : env.fetchOk = true) :
    Build env.runs (Deployment.render ⟨now, commitHash⟩) (pre ++ bad :: post) =
      ((pre ++ [bad]).map
        (fun c => ⟨Deployment.render ⟨now, commitHash⟩, c.headI, c.tail⟩),
       BuildResult.fail bad)
  ∧ Deploy env (pre ++ bad :: post) now commitHash w =
      ([Event.fetch ⟨now, commitHash⟩, Event.build ⟨now, commitHash⟩] ++
        ((pre ++ [bad]).map
          (fun c => Event.run
            ⟨Deployment.render ⟨now, commitHash⟩, c.headI, c.tail⟩)),
       ⟨SortNewestToOldest (⟨now, commitHash⟩ :: w.deps), w.activeLink⟩,
       some (DeployErr.buildErr bad))
  ∧ (⟨now, commitHash⟩ : Deployment) ∈
      SortNewestToOldest (⟨now, commitHash⟩ :: w.deps) := by
  have hbuild := Build_first_fail_core env.runs
    (Deployment.render ⟨now, commitHash⟩) pre post bad hpre hbadne hbad
  refine ⟨hbuild, ?_, ?_⟩
  · simp only [Deploy, hmiss, hfetch, if_true, hbuild]
    simp [List.map_map]
  · unfold SortNewestToOldest
    exact List.mem_mergeSort.mpr (List.mem_cons_self _ _)

/-- C8 witness: the abort theorem applied to a concrete environment where the
second command fails; the third command does not run and the call reports the
failing command. -/
theorem Build_first_failure_witness :
    Deploy envFail [["true"], ["false"], ["skip"]] 100 hashA ⟨[], none⟩ =
      ([Event.fetch ⟨100, hashA⟩, Event.build ⟨100, hashA⟩,
        Event.run ⟨Deployment.render ⟨100, hashA⟩, "true", []⟩,
        Event.run ⟨Deployment.render ⟨100, hashA⟩, "false", []⟩],
       ⟨SortNewestToOldest [⟨100, hashA⟩], none⟩,
       some (DeployErr.buildErr ["false"])) := by
  have h := (Build_first_failure envFail 100 hashA ⟨[], none⟩
      [["true"]] [["skip"]] ["false"] (by decide) (by decide) (by decide)
      rfl rfl).2.1
  simpa using h

/-- C1: when a deployment for the commit hash is already listed, a deploy
call performs neither fetch nor build and goes directly to activate and then
restart; and starting from a listing without the hash, two consecutive deploy
calls with the same hash perform fetch and build exactly once, the second
call only re-activating and restarting the deployment the first call built
(its own clean never evicts it, being active). -/
theorem Deploy_idempotent (env : DeployEnv) (cmds : List (List String))
    (now1 now2 : Int) (commitHash : String) (w : World)
    (hlen : commitHash.length = 40)
    (hhex : commitHash.data.all isHexChar = true)
    (hact : env.activateOk = true) (hrst : env.restartOk = true)
    (hfetch : env.fetchOk = true)
    (hbuild : (Build env.runs (Deployment.render ⟨now1, commitHash⟩) cmds).2 =
      BuildResult.ok) :
    (∀ dep, FindByCommitHash w.deps commitHash = some dep →
       (Deploy env cmds now1 commitHash w).1 =
         [Event.activate dep, Event.restart])
  ∧ (FindByCommitHash w.deps commitHash = none →
       ∀ e1 w1, Deploy env cmds now1 commitHash w = (e1, w1, none) →
         (Deploy env cmds now2 commitHash w1).1 =
             [Event.activate ⟨now1, commitHash⟩, Event.restart]
         ∧ (e1 ++ (Deploy env cmds now2 commitHash w1).1).countP
             isFetchEvent = 1
         ∧ (e1 ++ (Deploy env cmds now2 commitHash w1).1).countP
             isBuildEvent = 1) := by
  constructor
  · intro dep hfind
    rw [Deploy_hit env cmds now1 commitHash w dep hfind hact hrst]
  · intro hmiss e1 w1 hdep
    have hparse : Parse (Deployment.render ⟨now1, commitHash⟩) =
        some ⟨now1, commitHash⟩ :=
      Parse_render now1 commitHash hlen (no_underscore_of_hex _ hhex)
    have hfull := Deploy_miss_ok env cmds now1 commitHash w
      ⟨now1, commitHash⟩ hmiss hfetch hact hrst hbuild hparse
    have he1 : e1 = (Deploy env cmds now1 commitHash w).1 := by rw [hdep]
    have hw1 : w1 = (Deploy env cmds now1 commitHash w).2.1 := by rw [hdep]
    have he1v : e1 =
        [Event.fetch ⟨now1, commitHash⟩, Event.build ⟨now1, commitHash⟩] ++
          (Build env.runs (Deployment.render ⟨now1, commitHash⟩) cmds).1.map
            Event.run ++
          [Event.activate ⟨now1, commitHash⟩, Event.restart, Event.clean] := by
      rw [he1, hfull]
    have hw1v : w1 =
        ⟨cleanRemaining ⟨now1, commitHash⟩
           (SortNewestToOldest (⟨now1, commitHash⟩ :: w.deps)),
         some (Deployment.render ⟨now1, commitHash⟩)⟩ := by
      rw [hw1, hfull]
    have hdepmem : (⟨now1, commitHash⟩ : Deployment) ∈ w1.deps := by
      rw [hw1v]
      apply mem_cleanRemaining_self
      unfold SortNewestToOldest
      exact List.mem_mergeSort.mpr (List.mem_cons_self _ _)
    have hfind2 : FindByCommitHash w1.deps commitHash =
        some ⟨now1, commitHash⟩ := by
      cases hf : FindByCommitHash w1.deps commitHash with
      | none =>
        exact absurd rfl ((find_eq_none_iff _ _).mp hf _ hdepmem)
      | some d =>
        obtain ⟨hdmem, hdhash⟩ := find_some _ _ _ hf
        have hdmem2 : d ∈ cleanRemaining ⟨now1, commitHash⟩
            (SortNewestToOldest (⟨now1, commitHash⟩ :: w.deps)) := by
          rw [hw1v] at hdmem
          exact hdmem
        have hdmem3 : d ∈ (⟨now1, commitHash⟩ : Deployment) :: w.deps := by
          have hd4 := cleanRemaining_subset _ _ d hdmem2
          unfold SortNewestToOldest at hd4
          exact List.mem_mergeSort.mp hd4
        rcases List.mem_cons.mp hdmem3 with heq | hmem2
        · rw [heq]
        · exact absurd hdhash ((find_eq_none_iff _ _).mp hmiss d hmem2)
    have hcall2 := Deploy_hit env cmds now2 commitHash w1
      ⟨now1, commitHash⟩ hfind2 hact hrst
    refine ⟨by rw [hcall2], ?_, ?_⟩
    · rw [he1v, hcall2]
      simp [List.countP_append, List.countP_cons, isFetchEvent,
        countP_run_fetch]
    · rw [he1v, hcall2]
      simp [List.countP_append, List.countP_cons, isBuildEvent,
        countP_run_build]

unseal List.merge List.mergeSort in
theorem Deploy_idempotent_witness :
    (Deploy envOk [["true"]] 200 hash0 w10).1 =
        [Event.activate ⟨100, hash0⟩, Event.restart]
  ∧ ([Event.fetch ⟨100, hash0⟩, Event.build ⟨100, hash0⟩,
        Event.run ⟨Deployment.render ⟨100, hash0⟩, "true", []⟩,
        Event.activate ⟨100, hash0⟩, Event.restart, Event.clean] ++
      (Deploy envOk [["true"]] 200 hash0 w10).1).countP isFetchEvent = 1
  ∧ ([Event.fetch ⟨100, hash0⟩, Event.build ⟨100, hash0⟩,
        Event.run ⟨Deployment.render ⟨100, hash0⟩, "true", []⟩,
        Event.activate ⟨100, hash0⟩, Event.restart, Event.clean] ++
      (Deploy envOk [["true"]] 200 hash0 w10).1).countP isBuildEvent = 1 := by
  have h := (Deploy_idempotent envOk [["true"]] 100 200 hash0 ⟨[], none⟩
      (by decide) (by decide) rfl rfl rfl (by decide)).2 rfl
      [Event.fetch ⟨100, hash0⟩, Event.build ⟨100, hash0⟩,
        Event.run ⟨Deployment.render ⟨100, hash0⟩, "true", []⟩,
        Event.activate ⟨100, hash0⟩, Event.restart, Event.clean]
      w10 (by decide)
  exact h
